import Mathlib

/-
Verification of the yamlot scanner (package `token`).

The definitions below are a shallow embedding of the Go source of the
scanner: the `Tokenizer` struct, its helper methods, and `NextToken`.
Runes are modelled as `Char`, the `bufio.Reader` as a list of pending
characters plus a terminal condition (clean end of input, or a sticky
I/O error) and a one-slot pushback, and Go `int` as `Int`.  Loops are
modelled with explicit fuel (`none` = fuel exhausted); operations the
Go code lets panic are modelled as `Option`-returning functions where
`none` stands for the panic.  `len(value)` in the Go column arithmetic
is a byte length; values here are rune lists, which coincides on ASCII
input.
-/

set_option linter.unusedVariables false

namespace Yamlot

/-- Token kinds (Go `TokenType`: `TokenEOF` .. `TokenDedent`). -/
inductive TokenType where
  | eof
  | error
  | dash
  | plainScalar
  | newLine
  | docStart
  | docEnd
  | indent
  | dedent
deriving DecidableEq

/-- A scanned token (Go `Token`). -/
structure Token where
  type : TokenType
  value : String := ""
  line : Int := 0
  column : Int := 0
deriving DecidableEq

/-- Scanner states (Go `tokenStatus`). -/
inductive TokenStatus where
  | blank
  | oneDot
  | twoDots
  | threeDots
  | oneDash
  | twoDashes
  | threeDashes
  | afterDash
  | scalar
deriving DecidableEq

/-- Result of one read or peek on the underlying reader: a rune, end of
input (`io.EOF`), or an I/O failure carrying the error value. -/
inductive ReadRes where
  | ok (c : Char)
  | eofR
  | failR (e : String)
deriving DecidableEq

/-- The `bufio.Reader`: pending characters, the terminal condition that
follows them (`none` = clean EOF, `some e` = sticky I/O error `e`), and
the one-slot pushback (`lastRead` is the rune `UnreadRune` would push
back; it is invalidated by a failed read and by `Peek`). -/
structure Reader where
  ahead : List Char
  terminal : Option String := none
  lastRead : Option Char := none
deriving DecidableEq

/-- Go `bufio.Reader.ReadRune`: take the next rune, remembering it for
a single `UnreadRune`; at the end of the data, report the terminal
condition and invalidate the pushback slot. -/
def Reader.read : Reader → ReadRes × Reader
  | ⟨c :: rest, term, _⟩ => (.ok c, ⟨rest, term, some c⟩)
  | ⟨[], none, _⟩ => (.eofR, ⟨[], none, none⟩)
  | ⟨[], some e, _⟩ => (.failR e, ⟨[], some e, none⟩)

/-- Go `bufio.Reader.Peek(1)`: look at the next rune without consuming
it.  Peeking prevents a subsequent `UnreadRune` from succeeding. -/
def Reader.peek1 : Reader → ReadRes × Reader
  | ⟨c :: rest, term, _⟩ => (.ok c, ⟨c :: rest, term, none⟩)
  | ⟨[], none, _⟩ => (.eofR, ⟨[], none, none⟩)
  | ⟨[], some e, _⟩ => (.failR e, ⟨[], some e, none⟩)

/-- Go `bufio.Reader.UnreadRune`: push the last-read rune back; `none`
models the error returned when there is no rune to unread. -/
def Reader.unread : Reader → Option Reader
  | ⟨ahead, term, some c⟩ => some ⟨c :: ahead, term, none⟩
  | ⟨_, _, none⟩ => none

/-- One line of the diagnostic trace written by `readRune` when the
debug flag is set (the Go code prints caller, state name, rune and
error). -/
structure TraceEntry where
  caller : String
  status : TokenStatus
  res : ReadRes
deriving DecidableEq

/-- The scanner (Go `Tokenizer`).  `trace` is the side channel fed by
the debug printing; it is not a field of the Go struct but models the
process output the `debug` flag toggles. -/
structure Tokenizer where
  reader : Reader
  line : Int
  column : Int
  status : TokenStatus
  debug : Bool
  indentationLevelStack : List Int
  tokenBuffer : List Token
  trace : List TraceEntry
deriving DecidableEq

/-- Go `NewTokenizer`.  The `io.Reader` argument is modelled by the
character data plus the terminal condition of the stream. -/
def NewTokenizer (input : List Char) (terminal : Option String) (debug : Bool) : Tokenizer :=
  { reader := ⟨input, terminal, none⟩
    line := 1
    column := 0
    status := .blank
    debug := debug
    indentationLevelStack := [0]
    tokenBuffer := []
    trace := [] }

/-- Go `indentPush` (declared in the source; never called during
scanning). -/
def indentPush (t : Tokenizer) (level : Int) : Tokenizer :=
  { t with indentationLevelStack := t.indentationLevelStack ++ [level] }

/-- Go `indentPop` on the raw stack; `none` models the
`panic("cannot pop indentation level")` taken when the stack holds at
most the base entry. -/
def indentPop (s : List Int) : Option (Int × List Int) :=
  if s.length ≤ 1 then none
  else some (s.getLastD 0, s.dropLast)

/-- Go `tokenBufferPush`. -/
def tokenBufferPush (t : Tokenizer) (tok : Token) : Tokenizer :=
  { t with tokenBuffer := t.tokenBuffer ++ [tok] }

/-- Go `tokenBufferShift` on the raw buffer; `none` models the crash on
an empty buffer that the source comments announce. -/
def tokenBufferShift (buf : List Token) : Option (Token × List Token) :=
  match buf with
  | [] => none
  | tk :: rest => some (tk, rest)

/-- The signal half of Go's `(Token, error)` return value: `nil`,
`io.EOF`, or another error. -/
inductive Signal where
  | ok
  | eofSig
  | fail (e : String)
deriving DecidableEq

/-- Go `returnError`. -/
def returnError (t : Tokenizer) (e : String) : Token × Signal × Tokenizer :=
  ({ type := .error, line := t.line, column := t.column }, .fail e, t)

/-- Go `returnEOF`. -/
def returnEOF (t : Tokenizer) : Token × Signal × Tokenizer :=
  ({ type := .eof, line := t.line, column := t.column }, .eofSig, t)

/-- Go `returnNewLine`: emit the newline token, then advance the line
counter and reset the column to 0. -/
def returnNewLine (t : Tokenizer) : Token × Signal × Tokenizer :=
  ({ type := .newLine, value := "\\n", line := t.line, column := t.column }, .ok,
    { t with line := t.line + 1, column := 0 })

/-- Go `returnDash`. -/
def returnDash (t : Tokenizer) : Token × Signal × Tokenizer :=
  ({ type := .dash, value := "-", line := t.line, column := t.column }, .ok, t)

/-- Go `returnDocStart`. -/
def returnDocStart (t : Tokenizer) : Token × Signal × Tokenizer :=
  ({ type := .docStart, value := "---", line := t.line, column := t.column - 3 }, .ok, t)

/-- Go `returnDocEnd`. -/
def returnDocEnd (t : Tokenizer) : Token × Signal × Tokenizer :=
  ({ type := .docEnd, value := "...", line := t.line, column := t.column - 3 }, .ok, t)

/-- Go `unreadRune` on the tokenizer: push back via the reader and
decrement the column; the first component is the error, if any. -/
def unreadRune (t : Tokenizer) : Option String × Tokenizer :=
  match t.reader.unread with
  | some r => (none, { t with reader := r, column := t.column - 1 })
  | none => (some "bufio: invalid use of UnreadRune", t)

/-- Go `unreadAndReturnDash`. -/
def unreadAndReturnDash (t : Tokenizer) : Token × Signal × Tokenizer :=
  match unreadRune t with
  | (some e, t') => returnError t' e
  | (none, t') => returnDash t'

/-- Go `readRune`: read one rune, append a trace entry when the debug
flag is set (the Go code prints before checking the error), and
advance the column only on success. -/
def readRune (caller : String) (t : Tokenizer) : ReadRes × Tokenizer :=
  let p := t.reader.read
  let t1 := { t with reader := p.2 }
  let t2 := if t1.debug
    then { t1 with trace := t1.trace ++ [⟨caller, t1.status, p.1⟩] }
    else t1
  match p.1 with
  | .ok c => (.ok c, { t2 with column := t2.column + 1 })
  | r => (r, t2)

/-- The tail of Go `collectPlainScalar`: build the token from the
collected runes (`Column` is computed as `t.column - len(value)`). -/
def finishScalar (t : Tokenizer) (scalar : List Char) : Token × Signal × Tokenizer :=
  ({ type := .plainScalar
     value := String.mk scalar
     line := t.line
     column := t.column - (scalar.length : Int) }, .ok, t)

/-- Go `collectPlainScalar`: accumulate runes until the peeked rune is
a newline, `'#'`, or the input ends; an I/O failure on peek or read is
surfaced through `returnError` (a read failing with `io.EOF` after a
successful peek also goes through `returnError`, as in the source).
`none` = fuel exhausted. -/
def collectPlainScalar : Nat → Tokenizer → List Char → Option (Token × Signal × Tokenizer)
  | 0, _, _ => none
  | fuel + 1, t, scalar =>
    match t.reader.peek1 with
    | (.eofR, r') => some (finishScalar { t with reader := r' } scalar)
    | (.failR e, r') => some (returnError { t with reader := r' } e)
    | (.ok c, r') =>
      if c = '\n' ∨ c = '#' then
        some (finishScalar { t with reader := r' } scalar)
      else
        match readRune "collectPlainScalar" { t with reader := r' } with
        | (.ok ch, t2) => collectPlainScalar fuel t2 (scalar ++ [ch])
        | (.eofR, t2) => some (returnError t2 "EOF")
        | (.failR e, t2) => some (returnError t2 e)

/-- The dedent-draining loop of Go `pushPerStateEOF`: while more than
the base entry is on the indentation stack, pop it and queue a Dedent
token.  The counter is fuel for the loop; the caller passes the stack
length, which always suffices since every iteration pops one entry. -/
def drainDedents : Nat → Tokenizer → Tokenizer
  | 0, t => t
  | n + 1, t =>
    if 1 < t.indentationLevelStack.length then
      drainDedents n
        { t with
          indentationLevelStack := t.indentationLevelStack.dropLast
          tokenBuffer := t.tokenBuffer ++
            [{ type := .dedent, line := t.line, column := t.column }] }
    else t

/-- Go `pushPerStateEOF`: queue the resolution of a partial marker (as
the `'\n'` transition would have emitted it), drain the indentation
stack, then queue the terminal EOF token. -/
def pushPerStateEOF (t : Tokenizer) : Tokenizer :=
  let t1 :=
    match t.status with
    | .oneDash =>
      tokenBufferPush t { type := .dash, value := "-", line := t.line, column := t.column - 1 }
    | .twoDashes =>
      tokenBufferPush t { type := .plainScalar, value := "--", line := t.line, column := t.column - 2 }
    | .threeDashes =>
      tokenBufferPush t { type := .docStart, value := "---", line := t.line, column := t.column - 3 }
    | .oneDot =>
      tokenBufferPush t { type := .plainScalar, value := ".", line := t.line, column := t.column - 1 }
    | .twoDots =>
      tokenBufferPush t { type := .plainScalar, value := "..", line := t.line, column := t.column - 2 }
    | .threeDots =>
      tokenBufferPush t { type := .docEnd, value := "...", line := t.line, column := t.column - 3 }
    | _ => t
  let t2 := drainDedents t1.indentationLevelStack.length t1
  tokenBufferPush t2 { type := .eof, line := t2.line, column := t2.column }

/-- The blank-skipping loop inside the `statusAfterDash` case of
`NextToken`: skip spaces, emit NewLine on a newline, `returnEOF` if the
input ends, otherwise start scalar collection at the first non-space
rune. -/
def afterDashLoop : Nat → Tokenizer → Char → Option (Token × Signal × Tokenizer)
  | 0, _, _ => none
  | fuel + 1, t, ch =>
    if ch = '\n' then some (returnNewLine t)
    else if ch ≠ ' ' then collectPlainScalar fuel t [ch]
    else
      match readRune "NextToken: statusAfterDash" t with
      | (.eofR, t1) => some (returnEOF t1)
      | (.failR e, t1) => some (returnError t1 e)
      | (.ok ch', t1) => afterDashLoop fuel t1 ch'

/-- Go `NextToken`: drain the token buffer first; otherwise read a rune
(end of input triggers `pushPerStateEOF` and another loop iteration, a
read failure is surfaced through `returnError`) and dispatch on the
scanner state.  `none` = fuel exhausted. -/
def nextTok : Nat → Tokenizer → Option (Token × Signal × Tokenizer)
  | 0, _ => none
  | fuel + 1, t =>
    match t.tokenBuffer with
    | tk :: rest =>
      if tk.type = .eof then some (tk, .eofSig, { t with tokenBuffer := rest })
      else some (tk, .ok, { t with tokenBuffer := rest })
    | [] =>
      match readRune "NextToken" t with
      | (.eofR, t1) => nextTok fuel (pushPerStateEOF t1)
      | (.failR e, t1) => some (returnError t1 e)
      | (.ok ch, t1) =>
        match t1.status with
        | .blank =>
          if ch = ' ' then nextTok fuel t1
          else if ch = '\n' then some (returnNewLine t1)
          else if ch = '-' ∧ t1.column = 1 then nextTok fuel { t1 with status := .oneDash }
          else if ch = '.' ∧ t1.column = 1 then nextTok fuel { t1 with status := .oneDot }
          else collectPlainScalar fuel t1 [ch]
        | .oneDot =>
          if ch = '.' then nextTok fuel { t1 with status := .twoDots }
          else if ch = '\n' then
            match unreadRune { t1 with status := .blank } with
            | (some e, t3) => some (returnError t3 e)
            | (none, t3) =>
              some ({ type := .plainScalar, value := ".", line := t3.line,
                      column := t3.column - 1 }, .ok, t3)
          else collectPlainScalar fuel { t1 with status := .scalar } ['.', ch]
        | .twoDots =>
          if ch = '.' then nextTok fuel { t1 with status := .threeDots }
          else if ch = '\n' then
            match unreadRune { t1 with status := .blank } with
            | (some e, t3) => some (returnError t3 e)
            | (none, t3) =>
              some ({ type := .plainScalar, value := "..", line := t3.line,
                      column := t3.column - 2 }, .ok, t3)
          else collectPlainScalar fuel { t1 with status := .scalar } ['.', '.', ch]
        | .threeDots =>
          if ch = ' ' then some (returnDocEnd { t1 with status := .scalar })
          else if ch = '\n' then
            match unreadRune { t1 with status := .blank } with
            | (some e, t3) => some (returnError t3 e)
            | (none, t3) => some (returnDocEnd t3)
          else collectPlainScalar fuel { t1 with status := .scalar } ['.', '.', '.', ch]
        | .oneDash =>
          if ch = ' ' then some (returnDash { t1 with status := .scalar })
          else if ch = '\t' then some (unreadAndReturnDash { t1 with status := .afterDash })
          else if ch = '\n' then some (unreadAndReturnDash { t1 with status := .blank })
          else if ch = '-' then nextTok fuel { t1 with status := .twoDashes }
          else collectPlainScalar fuel { t1 with status := .blank } ['-', ch]
        | .twoDashes =>
          if ch = ' ' then
            some ({ type := .plainScalar, value := "--", line := t1.line,
                    column := t1.column - 2 }, .ok, { t1 with status := .blank })
          else if ch = '\n' then
            match unreadRune { t1 with status := .blank } with
            | (some e, t3) => some (returnError t3 e)
            | (none, t3) =>
              some ({ type := .plainScalar, value := "--", line := t3.line,
                      column := t3.column - 2 }, .ok, t3)
          else if ch = '-' then nextTok fuel { t1 with status := .threeDashes }
          else collectPlainScalar fuel { t1 with status := .blank } ['-', '-', ch]
        | .threeDashes =>
          if ch = ' ' then some (returnDocStart { t1 with status := .scalar })
          else if ch = '\n' then
            match unreadRune { t1 with status := .blank } with
            | (some e, t3) => some (returnError t3 e)
            | (none, t3) => some (returnDocStart t3)
          else collectPlainScalar fuel { t1 with status := .blank } ['-', '-', '-', ch]
        | .afterDash => afterDashLoop fuel { t1 with status := .blank } ch
        | .scalar =>
          if ch = '\n' then
            match unreadRune { t1 with status := .blank } with
            | (some e, t3) => some (returnError t3 e)
            | (none, t3) => collectPlainScalar fuel t3 []
          else collectPlainScalar fuel { t1 with status := .blank } [ch]

/-- Fuel that always suffices for one `NextToken` call: the outer loop
consumes a rune on every iteration except the final buffered return and
the end-of-input enqueue. -/
def callFuel (t : Tokenizer) : Nat :=
  t.reader.ahead.length + 2

/-- Run the scanner to completion (the test/CLI driver loop): collect
tokens until the EOF signal or an error, including the terminal token.
The outer `fuel` bounds the number of calls. -/
def tokenize : Nat → Tokenizer → List Token
  | 0, _ => []
  | fuel + 1, t =>
    match nextTok (callFuel t) t with
    | none => []
    | some (tk, .ok, t') => tk :: tokenize fuel t'
    | some (tk, .eofSig, _) => [tk]
    | some (tk, .fail _, _) => [tk]

/-- Make `k` consecutive `NextToken` calls regardless of the signals
returned, recording each token/signal pair (a caller may keep calling
after EOF). -/
def callsOf : Nat → Tokenizer → List (Token × Signal)
  | 0, _ => []
  | k + 1, t =>
    match nextTok (callFuel t) t with
    | none => []
    | some (tk, sig, t') => (tk, sig) :: callsOf k t'

/-- Modelled from the spec: the trimming the spec's scalar policy
demands — "raw value trimmed of leading/trailing whitespace" (Go
`strings.TrimSpace`).  Used only to compare the code's behaviour with
the specified one. -/
def specTrimSpace (s : String) : String :=
  String.mk (((s.data.dropWhile Char.isWhitespace).reverse.dropWhile
    Char.isWhitespace).reverse)

/-- The token that `pushPerStateEOF` queues for each partial-marker
state when the input ends there — the same kind/value the `'\n'`
transition of that state emits (`none` for the non-marker states). -/
def markerEOFToken : TokenStatus → Int → Int → Option Token
  | .oneDash, l, c => some { type := .dash, value := "-", line := l, column := c - 1 }
  | .twoDashes, l, c => some { type := .plainScalar, value := "--", line := l, column := c - 2 }
  | .threeDashes, l, c => some { type := .docStart, value := "---", line := l, column := c - 3 }
  | .oneDot, l, c => some { type := .plainScalar, value := ".", line := l, column := c - 1 }
  | .twoDots, l, c => some { type := .plainScalar, value := "..", line := l, column := c - 2 }
  | .threeDots, l, c => some { type := .docEnd, value := "...", line := l, column := c - 3 }
  | _, _, _ => none

/-- Erase the debug flag and the diagnostic trace, keeping every field
that can influence token output. -/
def stripDebug (t : Tokenizer) : Tokenizer :=
  { t with debug := false, trace := [] }

/-- A token's value contains no newline character (the property is
about `PlainScalar` tokens; for other kinds it holds vacuously). -/
def noNewlineValue (tok : Token) : Prop :=
  tok.type = .plainScalar → ∀ c ∈ tok.value.data, c ≠ '\n'

/-- The scanner-state invariant for the newline-free-scalar property:
every buffered token already satisfies it. -/
def bufferNoNewline (t : Tokenizer) : Prop :=
  ∀ tok ∈ t.tokenBuffer, noNewlineValue tok

theorem callFuel_succ (t : Tokenizer) :
    callFuel t = t.reader.ahead.length + 1 + 1 := rfl

theorem readRune_eof (caller : String) (t : Tokenizer)
    (ha : t.reader.ahead = []) (ht : t.reader.terminal = none) :
    readRune caller t =
      (.eofR,
        { t with
          reader := ⟨[], none, none⟩
          trace := if t.debug then t.trace ++ [⟨caller, t.status, .eofR⟩] else t.trace }) := by
  obtain ⟨⟨ahead, term, lr⟩, l, c, st, d, stk, buf, tr⟩ := t
  simp only at ha ht
  subst ha ht
  cases d <;> simp [readRune, Reader.read]

theorem readRune_fail (caller : String) (t : Tokenizer) (e : String)
    (ha : t.reader.ahead = []) (ht : t.reader.terminal = some e) :
    readRune caller t =
      (.failR e,
        { t with
          reader := ⟨[], some e, none⟩
          trace := if t.debug then t.trace ++ [⟨caller, t.status, .failR e⟩] else t.trace }) := by
  obtain ⟨⟨ahead, term, lr⟩, l, c, st, d, stk, buf, tr⟩ := t
  simp only at ha ht
  subst ha ht
  cases d <;> simp [readRune, Reader.read]

theorem readRune_ok (caller : String) (t : Tokenizer) (c : Char) (rest : List Char)
    (ha : t.reader.ahead = c :: rest) :
    readRune caller t =
      (.ok c,
        { t with
          reader := ⟨rest, t.reader.terminal, some c⟩
          column := t.column + 1
          trace := if t.debug then t.trace ++ [⟨caller, t.status, .ok c⟩] else t.trace }) := by
  obtain ⟨⟨ahead, term, lr⟩, l, co, st, d, stk, buf, tr⟩ := t
  simp only at ha
  subst ha
  cases d <;> simp [readRune, Reader.read]

theorem nextTok_buffered (t : Tokenizer) (fuel : Nat) (tk : Token) (rest : List Token)
    (hb : t.tokenBuffer = tk :: rest) :
    nextTok (fuel + 1) t =
      if tk.type = .eof then some (tk, .eofSig, { t with tokenBuffer := rest })
      else some (tk, .ok, { t with tokenBuffer := rest }) := by
  simp [nextTok, hb]

theorem drainDedents_spec (n : Nat) : ∀ (t : Tokenizer),
    t.indentationLevelStack.length ≤ n →
    drainDedents n t =
      { t with
        indentationLevelStack := t.indentationLevelStack.take 1
        tokenBuffer := t.tokenBuffer ++
          List.replicate (t.indentationLevelStack.length - 1)
            { type := .dedent, value := "", line := t.line, column := t.column } } := by
  induction n with
  | zero =>
    intro t hlen
    have hnil : t.indentationLevelStack = [] := List.length_eq_zero.mp (Nat.le_zero.mp hlen)
    obtain ⟨rd, l, c, st, d, stk, buf, tr⟩ := t
    simp only at hnil
    subst hnil
    simp [drainDedents]
  | succ n ih =>
    intro t hlen
    rw [drainDedents]
    by_cases h1 : 1 < t.indentationLevelStack.length
    · simp only [h1, if_true]
      rw [ih _ (by simp only [List.length_dropLast]; omega)]
      obtain ⟨rd, l, c, st, d, stk, buf, tr⟩ := t
      simp only at h1 ⊢
      have htake : stk.dropLast.take 1 = stk.take 1 := by
        match stk, h1 with
        | a :: b :: rest, _ =>
          rw [List.dropLast_cons₂]
          simp
      have hbuf : (buf ++ [({ type := .dedent, value := "", line := l, column := c } : Token)]) ++
          List.replicate (stk.dropLast.length - 1)
            ({ type := .dedent, value := "", line := l, column := c } : Token) =
          buf ++ List.replicate (stk.length - 1)
            ({ type := .dedent, value := "", line := l, column := c } : Token) := by
        rw [List.append_assoc, List.singleton_append, ← List.replicate_succ,
          List.length_dropLast]
        congr 2
        omega
      simp [Tokenizer.mk.injEq, htake, hbuf]
      rw [← List.replicate_succ]
      congr 1
      omega
    · simp only [h1, if_false]
      have hle : t.indentationLevelStack.length ≤ 1 := by omega
      obtain ⟨rd, l, c, st, d, stk, buf, tr⟩ := t
      simp only at hle ⊢
      rw [List.take_of_length_le hle]
      have h0 : stk.length - 1 = 0 := by omega
      rw [h0]
      simp

theorem pushPerStateEOF_marker (t : Tokenizer) (tok : Token)
    (hm : markerEOFToken t.status t.line t.column = some tok) :
    pushPerStateEOF t =
      { t with
        indentationLevelStack := t.indentationLevelStack.take 1
        tokenBuffer := t.tokenBuffer ++ [tok] ++
          List.replicate (t.indentationLevelStack.length - 1)
            { type := .dedent, value := "", line := t.line, column := t.column } ++
          [{ type := .eof, value := "", line := t.line, column := t.column }] } := by
  obtain ⟨rd, l, c, st, d, stk, buf, tr⟩ := t
  cases st <;> simp only [markerEOFToken, Option.some.injEq] at hm
  all_goals
    first
    | exact Option.noConfusion hm
    | (subst hm
       simp only [pushPerStateEOF, tokenBufferPush]
       rw [drainDedents_spec _ _ (by simp)]
       try simp [List.append_assoc])

theorem nextTok_eof_step (t : Tokenizer) (fuel : Nat)
    (hb : t.tokenBuffer = []) (ha : t.reader.ahead = []) (ht : t.reader.terminal = none) :
    nextTok (fuel + 1) t =
      nextTok fuel (pushPerStateEOF
        { t with
          reader := ⟨[], none, none⟩
          trace := if t.debug then t.trace ++ [⟨"NextToken", t.status, .eofR⟩] else t.trace }) := by
  simp only [nextTok]
  rw [readRune_eof _ _ ha ht, hb]

theorem markerEOFToken_ne_eof (st : TokenStatus) (l c : Int) (tok : Token)
    (hm : markerEOFToken st l c = some tok) : tok.type ≠ .eof := by
  cases st <;> simp only [markerEOFToken, Option.some.injEq] at hm
  all_goals first
  | exact Option.noConfusion hm
  | (subst hm; simp)

theorem callsOf_buffer_walk : ∀ (toks : List Token) (t : Tokenizer) (te : Token) (k : Nat),
    k = toks.length + 1 →
    t.tokenBuffer = toks ++ [te] → te.type = .eof → (∀ tok ∈ toks, tok.type ≠ .eof) →
    callsOf k t =
      toks.map (fun tok => (tok, Signal.ok)) ++ [(te, Signal.eofSig)] := by
  intro toks
  induction toks with
  | nil =>
    intro t te k hk hb he _
    subst hk
    rw [callsOf, callFuel_succ, nextTok_buffered t _ te [] (by simpa using hb)]
    simp [he, callsOf]
  | cons tok toks ih =>
    intro t te k hk hb he hne
    subst hk
    rw [List.length_cons, callsOf, callFuel_succ,
      nextTok_buffered t _ tok (toks ++ [te]) (by simpa using hb)]
    have hnotEof : ¬ tok.type = .eof := hne tok (by simp)
    simp only [hnotEof, if_false]
    rw [ih _ te _ rfl (by simp) he (fun x hx => hne x (by simp [hx]))]
    simp

theorem collectPlainScalar_clean : ∀ (fuel : Nat) (t : Tokenizer) (scalar : List Char),
    t.reader.terminal = none → t.reader.ahead.length < fuel →
    ∃ t', collectPlainScalar fuel t scalar =
      some ({ type := .plainScalar
              value := String.mk (scalar ++ t.reader.ahead.takeWhile
                (fun a => !decide (a = '\n' ∨ a = '#')))
              line := t.line
              column := t.column - (scalar.length : Int) }, .ok, t') := by
  intro fuel
  induction fuel with
  | zero =>
    intro t scalar hterm hfuel
    exact absurd hfuel (by omega)
  | succ fuel ih =>
    intro t scalar hterm hfuel
    obtain ⟨⟨ahead, term, lr⟩, l, c, st, d, stk, buf, tr⟩ := t
    simp only at hterm hfuel ⊢
    subst hterm
    cases ahead with
    | nil =>
      refine ⟨⟨⟨[], none, none⟩, l, c, st, d, stk, buf, tr⟩, ?_⟩
      simp [collectPlainScalar, Reader.peek1, finishScalar]
    | cons c0 rest =>
      by_cases hstop : c0 = '\n' ∨ c0 = '#'
      · refine ⟨⟨⟨c0 :: rest, none, none⟩, l, c, st, d, stk, buf, tr⟩, ?_⟩
        simp only [collectPlainScalar, Reader.peek1]
        rw [if_pos hstop]
        rcases hstop with h | h <;> simp [finishScalar, List.takeWhile_cons, h]
      · have hfuel' : rest.length < fuel := by
          simp only [List.length_cons] at hfuel
          omega
        obtain ⟨t', heq⟩ := ih ⟨⟨rest, none, some c0⟩, l, c + 1, st, d, stk, buf,
          if d then tr ++ [⟨"collectPlainScalar", st, .ok c0⟩] else tr⟩ (scalar ++ [c0]) rfl hfuel'
        refine ⟨t', ?_⟩
        simp only [collectPlainScalar, Reader.peek1]
        rw [if_neg hstop]
        rw [readRune_ok "collectPlainScalar" _ c0 rest rfl]
        dsimp only
        rw [heq]
        dsimp only
        have h1 : ¬ c0 = '\n' := fun h => hstop (Or.inl h)
        have h2 : ¬ c0 = '#' := fun h => hstop (Or.inr h)
        have hval : scalar ++ [c0] ++ List.takeWhile (fun a => !decide (a = '\n' ∨ a = '#')) rest =
            scalar ++ List.takeWhile (fun a => !decide (a = '\n' ∨ a = '#')) (c0 :: rest) := by
          simp [List.takeWhile_cons, h1, h2]
        have hcol : c + 1 - ((scalar ++ [c0]).length : Int) = c - (scalar.length : Int) := by
          simp only [List.length_append, List.length_cons, List.length_nil]
          omega
        rw [hval, hcol]

/-- C1: the claim says that once `NextToken` has signalled `EndOfInput`
every later call signals `EndOfInput` again, even when the input ended
inside a partial marker such as a lone `'-'`.  The code violates this:
`pushPerStateEOF` never resets `status`, so on input `"-"` call 1
returns Dash, call 2 returns EndOfInput, but call 3 re-resolves the
still-pending `OneDash` state and returns Dash again (and the pattern
repeats forever).  This evaluation of the code at the failing input
exhibits the divergence. -/
theorem claim1_eof_not_terminal_replays_marker :
    (callsOf 4 (NewTokenizer ['-'] none false)).map (fun p => (p.1.type, p.2)) =
      [(.dash, .ok), (.eof, .eofSig), (.dash, .ok), (.eof, .eofSig)] := by decide

/-- C2: the claim (and the repository's own `TestIndent`) says input
`" -"` tokenizes to `[Indent, Dash, Dedent, EndOfInput]` via the
indentation stack.  The code never calls `indentPush` during scanning:
the `statusBlank` case simply skips spaces, so the dash at column 2
fails the column-1 marker test and is collected as a plain scalar.
This evaluation of the code at the failing input exhibits the
divergence: the output is `[PlainScalar("-"), EndOfInput]` with no
Indent or Dedent token. -/
theorem claim2_no_indent_tokens_emitted :
    tokenize 6 (NewTokenizer [' ', '-'] none false) =
      [{ type := .plainScalar, value := "-", line := 1, column := 1 },
       { type := .eof, value := "", line := 1, column := 2 }] := by decide

/-- C4: the claim says every token's `Column` is the 1-based column of
its first character, and in particular `"  ---"` yields
`PlainScalar("---")` at column 3 (as the repository's own test table
declares).  The code computes `Column` as `t.column - len(value)` where
`t.column` is the column of the *last* collected character, which is
the 1-based first-character column minus one: the evaluation shows
column 2, not 3. -/
theorem claim4_column_off_by_one :
    tokenize 8 (NewTokenizer [' ', ' ', '-', '-', '-'] none false) =
      [{ type := .plainScalar, value := "---", line := 1, column := 2 },
       { type := .eof, value := "", line := 1, column := 5 }] := by decide

/-- C3 counterexample: the claim says a scalar begun directly from the
`Blank` state is emitted trimmed of leading/trailing whitespace.  On
input `"a "` the scalar is begun from `Blank` at `'a'`, the raw
collected run is `"a "`, its trimmed form is `"a"`, yet the code emits
the untrimmed `"a "`: `collectPlainScalar` in this version of the
scanner applies no `TrimSpace`. -/
theorem claim3_counterexample_trailing_space_kept :
    tokenize 6 (NewTokenizer ['a', ' '] none false) =
      [{ type := .plainScalar, value := "a ", line := 1, column := 0 },
       { type := .eof, value := "", line := 1, column := 2 }] ∧
    specTrimSpace "a " = "a" ∧ ("a " : String) ≠ "a" :=
  ⟨by decide, by decide, by decide⟩

/-- C6 counterexample: the claim says popping the base indentation
level and removing from an empty token buffer are surfaced as
Error-kind tokens rather than a crash; in the code both operations
panic (modelled by `none`), exactly as the source comments announce
("cannot pop indentation level", "for now we will crash if tokenBuffer
is empty"). -/
theorem claim6_counterexample_pop_and_shift_panic :
    indentPop [0] = none ∧ tokenBufferShift [] = none :=
  ⟨by decide, by decide⟩

/-- C5: if the input ends while the scanner is in one of the six
partial-marker states, the following `NextToken` calls deliver, in
order, the token the `'\n'` transition of that state would emit
(`markerEOFToken`), one Dedent per indentation level above the base,
and the terminal EndOfInput; in particular `"---"` yields
`[DocStart, EndOfInput]`. -/
theorem claim5_eof_marker_resolution :
    (∀ (t : Tokenizer) (tok : Token),
      t.tokenBuffer = [] → t.reader.ahead = [] → t.reader.terminal = none →
      1 ≤ t.indentationLevelStack.length →
      markerEOFToken t.status t.line t.column = some tok →
      callsOf (t.indentationLevelStack.length + 1) t =
        (tok, Signal.ok) ::
          (List.replicate (t.indentationLevelStack.length - 1)
            ({ type := .dedent, value := "", line := t.line, column := t.column }, Signal.ok) ++
           [({ type := .eof, value := "", line := t.line, column := t.column }, Signal.eofSig)])) ∧
    tokenize 5 (NewTokenizer ['-', '-', '-'] none false) =
      [{ type := .docStart, value := "---", line := 1, column := 0 },
       { type := .eof, value := "", line := 1, column := 3 }] := by
  constructor
  · intro t tok hb ha ht hlen hm
    rw [callsOf, callFuel_succ, nextTok_eof_step t _ hb ha ht]
    rw [pushPerStateEOF_marker _ tok (by simpa using hm)]
    dsimp only
    rw [nextTok_buffered _ t.reader.ahead.length tok
      (List.replicate (t.indentationLevelStack.length - 1)
        { type := .dedent, value := "", line := t.line, column := t.column } ++
       [{ type := .eof, value := "", line := t.line, column := t.column }])
      (by simp [hb])]
    rw [if_neg (markerEOFToken_ne_eof _ _ _ _ hm)]
    dsimp only
    rw [callsOf_buffer_walk
      (List.replicate (t.indentationLevelStack.length - 1)
        { type := .dedent, value := "", line := t.line, column := t.column })
      _ { type := .eof, value := "", line := t.line, column := t.column }
      t.indentationLevelStack.length
      (by simp only [List.length_replicate]; omega)
      (by simp) rfl
      (fun x hx => by rw [List.eq_of_mem_replicate hx]; simp)]
    simp
  · decide

theorem claim5_eof_marker_resolution_witness :
    callsOf 2 ⟨⟨[], none, some '-'⟩, 1, 3, .threeDashes, false, [0], [], []⟩ =
      [({ type := .docStart, value := "---", line := 1, column := 0 }, Signal.ok),
       ({ type := .eof, value := "", line := 1, column := 3 }, Signal.eofSig)] := by
  have h := claim5_eof_marker_resolution.1
    ⟨⟨[], none, some '-'⟩, 1, 3, .threeDashes, false, [0], [], []⟩
    { type := .docStart, value := "---", line := 1, column := 0 }
    rfl rfl rfl (by simp) (by decide)
  simpa using h

/-- C6 amended: a double unread is rejected by the reader with an
error that the dash path (`unreadAndReturnDash`) surfaces as an
Error-kind token; popping the base indentation level and removing from
an empty token buffer panic instead (see the counterexample), but the
operations succeed whenever the guards checked at every `NextToken`
call site hold — the stack is longer than the base entry, the buffer
is non-empty — so the panicking paths are unreachable through
`NextToken`. -/
theorem claim6_guarded_ops_and_unread_error :
    (∀ s : List Int, 1 < s.length → indentPop s = some (s.getLastD 0, s.dropLast)) ∧
    (∀ (tk : Token) (rest : List Token), tokenBufferShift (tk :: rest) = some (tk, rest)) ∧
    (∀ t : Tokenizer, t.reader.lastRead = none →
      unreadAndReturnDash t =
        ({ type := .error, value := "", line := t.line, column := t.column },
          .fail "bufio: invalid use of UnreadRune", t)) := by
  refine ⟨?_, ?_, ?_⟩
  · intro s h
    simp [indentPop, Nat.not_le.mpr h]
  · intro tk rest
    rfl
  · intro t h
    obtain ⟨⟨ahead, term, lr⟩, l, c, st, d, stk, buf, tr⟩ := t
    simp only at h
    subst h
    simp [unreadAndReturnDash, unreadRune, Reader.unread, returnError]

theorem claim6_witness :
    indentPop [0, 2] = some (2, [0]) ∧
    tokenBufferShift [({ type := .dash, value := "-", line := 1, column := 1 } : Token)] =
      some ({ type := .dash, value := "-", line := 1, column := 1 }, []) ∧
    unreadAndReturnDash (NewTokenizer [] none false) =
      ({ type := .error, value := "", line := 1, column := 0 },
        .fail "bufio: invalid use of UnreadRune", NewTokenizer [] none false) :=
  ⟨claim6_guarded_ops_and_unread_error.1 [0, 2] (by decide),
   claim6_guarded_ops_and_unread_error.2.1 _ [],
   claim6_guarded_ops_and_unread_error.2.2 _ rfl⟩

/-- C7: when the underlying read fails with a non-EOF I/O error `e`,
the very `NextToken` call that performs the read (any state with an
empty token buffer) returns a token of kind Error at the current
line/column, paired with the causing error value (`Signal.fail e`). -/
theorem claim7_read_failure_error_token :
    ∀ (t : Tokenizer) (e : String) (fuel : Nat),
      t.tokenBuffer = [] → t.reader.ahead = [] → t.reader.terminal = some e →
      ∃ t', nextTok (fuel + 1) t =
        some ({ type := .error, value := "", line := t.line, column := t.column }, .fail e, t') := by
  intro t e fuel hb ha ht
  simp only [nextTok]
  rw [readRune_fail _ _ _ ha ht, hb]
  exact ⟨_, rfl⟩

theorem claim7_read_failure_error_token_witness :
    ∃ t', nextTok 1 (NewTokenizer [] (some "read error") false) =
      some ({ type := .error, value := "", line := 1, column := 0 }, .fail "read error", t') := by
  have h := claim7_read_failure_error_token (NewTokenizer [] (some "read error") false)
    "read error" 0 rfl rfl rfl
  simpa using h

/-- C3 amended: a PlainScalar begun directly from the `Blank` state
(the next rune is not a space or newline, and not a dash/dot at
column 1) is emitted with its raw collected run verbatim — the run of
runes up to the next newline, `'#'`, or end of input — with no
leading/trailing whitespace trimming. -/
theorem claim3_blank_scalar_verbatim :
    ∀ (t : Tokenizer) (c : Char) (rest : List Char),
      t.status = .blank → t.tokenBuffer = [] →
      t.reader.ahead = c :: rest → t.reader.terminal = none →
      c ≠ ' ' → c ≠ '\n' → (c = '-' → t.column + 1 ≠ 1) → (c = '.' → t.column + 1 ≠ 1) →
      ∃ t', nextTok (rest.length + 1 + 1) t =
        some ({ type := .plainScalar
                value := String.mk (c :: rest.takeWhile (fun a => !decide (a = '\n' ∨ a = '#')))
                line := t.line
                column := t.column }, .ok, t') := by
  intro t c rest hst hb ha hterm hsp hnl hdash hdot
  obtain ⟨⟨ahead, term, lr⟩, l, co, st, d, stk, buf, tr⟩ := t
  simp only at hst hb ha hterm hdash hdot ⊢
  subst hst hb ha hterm
  simp only [nextTok]
  rw [readRune_ok "NextToken" _ c rest rfl]
  dsimp only
  have h3 : ¬(c = '-' ∧ co + 1 = 1) := by
    rintro ⟨h1, h2⟩
    exact hdash h1 h2
  have h4 : ¬(c = '.' ∧ co + 1 = 1) := by
    rintro ⟨h1, h2⟩
    exact hdot h1 h2
  rw [if_neg hsp, if_neg hnl, if_neg h3, if_neg h4]
  obtain ⟨t', heq⟩ := collectPlainScalar_clean (rest.length + 1)
    ⟨⟨rest, none, some c⟩, l, co + 1, .blank, d, stk, [],
      if d then tr ++ [⟨"NextToken", .blank, .ok c⟩] else tr⟩ [c] rfl (by simp)
  refine ⟨t', ?_⟩
  rw [heq]
  dsimp only
  have hcol : co + 1 - (([c] : List Char).length : Int) = co := by simp
  rw [hcol]
  rfl

theorem claim3_blank_scalar_verbatim_witness :
    ∃ t', nextTok 3 (NewTokenizer ['a', ' '] none false) =
      some ({ type := .plainScalar, value := "a ", line := 1, column := 0 }, .ok, t') := by
  have h := claim3_blank_scalar_verbatim (NewTokenizer ['a', ' '] none false) 'a' [' ']
    rfl rfl rfl rfl (by decide) (by decide) (by decide) (by decide)
  simpa using h

theorem nextTok_blank_newline (t : Tokenizer) (fuel : Nat) (rest : List Char)
    (hb : t.tokenBuffer = []) (hst : t.status = .blank)
    (ha : t.reader.ahead = '\n' :: rest) :
    nextTok (fuel + 1) t =
      some ({ type := .newLine, value := "\\n", line := t.line, column := t.column + 1 }, .ok,
        { t with
          reader := ⟨rest, t.reader.terminal, some '\n'⟩
          line := t.line + 1
          column := 0
          trace := if t.debug then t.trace ++ [⟨"NextToken", .blank, .ok '\n'⟩] else t.trace }) := by
  simp only [nextTok]
  rw [hb, readRune_ok "NextToken" _ '\n' rest ha]
  dsimp only
  rw [hst]
  simp [returnNewLine]
  exact hb

theorem tokenize_newlines_gen : ∀ (n : Nat) (l : Int) (d : Bool) (lr : Option Char)
    (tr : List TraceEntry),
    tokenize (n + 1 + 1) ⟨⟨List.replicate n '\n', none, lr⟩, l, 0, .blank, d, [0], [], tr⟩ =
      (List.range n).map (fun i =>
        { type := .newLine, value := "\\n", line := l + (i : Int), column := 1 }) ++
        [{ type := .eof, value := "", line := l + (n : Int), column := 0 }] := by
  intro n
  induction n with
  | zero =>
    intro l d lr tr
    simp only [Nat.cast_zero, add_zero, List.range_zero, List.map_nil, List.nil_append,
      List.replicate]
    cases d <;> rfl
  | succ n ih =>
    intro l d lr tr
    rw [tokenize]
    rw [callFuel_succ, nextTok_blank_newline _ _ (List.replicate n '\n') rfl rfl
      (by simp [List.replicate_succ])]
    dsimp only
    rw [ih (l + 1) d (some '\n')]
    simp only [List.range_succ_eq_map, List.map_cons, List.map_map, Nat.cast_zero, add_zero,
      List.cons_append, zero_add]
    refine congrArg₂ _ ?_ ?_
    · simp
    · refine congrArg₂ _ ?_ ?_
      · refine List.map_congr_left ?_
        intro i _
        simp only [Function.comp_apply, Token.mk.injEq, and_true, true_and]
        push_cast
        ring
      · simp only [List.cons.injEq, Token.mk.injEq, and_true, true_and]
        push_cast
        ring

/-- C9: an input of exactly `n` newline characters produces exactly
`n` NewLine tokens followed by the terminal EndOfInput; the line
counter is 1-based and increases by one per NewLine (line `1 + i` for
the `i`-th token), each newline sits at column 1 of its line, and the
column is reset to 0 after each NewLine (visible in the final EOF
token's column 0).  `n + 1 + 1` calls of fuel suffice: one per token
plus the terminal one. -/
theorem claim9_newlines_stream :
    ∀ (n : Nat) (d : Bool),
      tokenize (n + 1 + 1) (NewTokenizer (List.replicate n '\n') none d) =
        (List.range n).map (fun i =>
          { type := .newLine, value := "\\n", line := 1 + (i : Int), column := 1 }) ++
          [{ type := .eof, value := "", line := 1 + (n : Int), column := 0 }] := by
  intro n d
  have h := tokenize_newlines_gen n 1 d none []
  simpa [NewTokenizer] using h

theorem bufferNoNewline_empty (t : Tokenizer) (h : t.tokenBuffer = []) :
    bufferNoNewline t := by
  intro tok htok
  rw [h] at htok
  exact absurd htok (List.not_mem_nil tok)

theorem collectPlainScalar_noNewline : ∀ (fuel : Nat) (t : Tokenizer) (scalar : List Char)
    (res : Token × Signal × Tokenizer),
    (∀ x ∈ scalar, x ≠ '\n') →
    collectPlainScalar fuel t scalar = some res →
    noNewlineValue res.1 ∧ res.2.2.tokenBuffer = t.tokenBuffer := by
  intro fuel
  induction fuel with
  | zero =>
    intro t scalar res _ h
    exact absurd h (by simp [collectPlainScalar])
  | succ fuel ih =>
    intro t scalar res hs h
    obtain ⟨⟨ahead, term, lr⟩, l, c, st, d, stk, buf, tr⟩ := t
    rw [collectPlainScalar] at h
    cases ahead with
    | nil =>
      cases term with
      | none =>
        dsimp only [Reader.peek1] at h
        obtain rfl := Option.some.inj h
        refine ⟨?_, rfl⟩
        intro _ x hx
        exact hs x (by simpa [finishScalar] using hx)
      | some e =>
        dsimp only [Reader.peek1] at h
        obtain rfl := Option.some.inj h
        exact ⟨by simp [noNewlineValue, returnError], rfl⟩
    | cons c0 arest =>
      dsimp only [Reader.peek1] at h
      by_cases hstop : c0 = '\n' ∨ c0 = '#'
      · rw [if_pos hstop] at h
        obtain rfl := Option.some.inj h
        refine ⟨?_, rfl⟩
        intro _ x hx
        exact hs x (by simpa [finishScalar] using hx)
      · rw [if_neg hstop] at h
        rw [readRune_ok "collectPlainScalar" _ c0 arest rfl] at h
        dsimp only at h
        obtain ⟨h1, h2⟩ := ih _ _ _ (by
          intro x hx
          rcases List.mem_append.mp hx with hx | hx
          · exact hs x hx
          · simp only [List.mem_singleton] at hx
            subst hx
            exact fun hc => hstop (Or.inl hc)) h
        exact ⟨h1, by simpa using h2⟩

theorem pushPerStateEOF_noNewline (t : Tokenizer) (hInv : bufferNoNewline t) :
    bufferNoNewline (pushPerStateEOF t) := by
  obtain ⟨⟨ahead, term, lr⟩, l, c, st, d, stk, buf, tr⟩ := t
  have hbuf : ∀ x ∈ buf, noNewlineValue x := fun x hx => hInv x hx
  intro tok htok
  cases st <;>
    (simp only [pushPerStateEOF, tokenBufferPush] at htok
     rw [drainDedents_spec _ _ (by simp)] at htok
     dsimp only at htok
     simp only [List.mem_append, List.mem_singleton] at htok) <;>
    casesm* _ ∨ _ <;>
    (rename_i htok2) <;>
    first
    | exact hbuf tok htok2
    | (subst htok2; intro _; dsimp only; decide)
    | (subst htok2; simp [noNewlineValue])
    | (rw [List.eq_of_mem_replicate htok2]; simp [noNewlineValue])

theorem afterDashLoop_noNewline : ∀ (fuel : Nat) (t : Tokenizer) (ch : Char)
    (res : Token × Signal × Tokenizer),
    afterDashLoop fuel t ch = some res →
    noNewlineValue res.1 ∧ res.2.2.tokenBuffer = t.tokenBuffer := by
  intro fuel
  induction fuel with
  | zero =>
    intro t ch res h
    exact absurd h (by simp [afterDashLoop])
  | succ fuel ih =>
    intro t ch res h
    rw [afterDashLoop] at h
    by_cases hn : ch = '\n'
    · rw [if_pos hn] at h
      obtain rfl := Option.some.inj h
      exact ⟨by simp [noNewlineValue, returnNewLine], rfl⟩
    · rw [if_neg hn] at h
      by_cases hsp : ch ≠ ' '
      · rw [if_pos hsp] at h
        exact collectPlainScalar_noNewline fuel t [ch] res
          (by intro x hx; simp only [List.mem_singleton] at hx; subst hx; exact hn) h
      · rw [if_neg hsp] at h
        obtain ⟨⟨ahead, term, lr⟩, l, c, st, d, stk, buf, tr⟩ := t
        cases ahead with
        | nil =>
          cases term with
          | none =>
            rw [readRune_eof _ _ rfl rfl] at h
            dsimp only at h
            obtain rfl := Option.some.inj h
            exact ⟨by simp [noNewlineValue, returnEOF], rfl⟩
          | some e =>
            rw [readRune_fail _ _ e rfl rfl] at h
            dsimp only at h
            obtain rfl := Option.some.inj h
            exact ⟨by simp [noNewlineValue, returnError], rfl⟩
        | cons c0 arest =>
          rw [readRune_ok _ _ c0 arest rfl] at h
          dsimp only at h
          obtain ⟨h1, h2⟩ := ih _ _ _ h
          exact ⟨h1, by simpa using h2⟩

theorem nextTok_noNewline : ∀ (fuel : Nat) (t : Tokenizer) (res : Token × Signal × Tokenizer),
    bufferNoNewline t → nextTok fuel t = some res →
    noNewlineValue res.1 ∧ bufferNoNewline res.2.2 := by
  intro fuel
  induction fuel with
  | zero =>
    intro t res _ h
    exact absurd h (by simp [nextTok])
  | succ fuel ih =>
    intro t res hInv h
    have hcollect : ∀ (fx : Nat) (T : Tokenizer) (S : List Char),
        T.tokenBuffer = [] → (∀ x ∈ S, x ≠ '\n') →
        collectPlainScalar fx T S = some res →
        noNewlineValue res.1 ∧ bufferNoNewline res.2.2 := by
      intro fx T S hT hS hcol
      obtain ⟨hv, hb2⟩ := collectPlainScalar_noNewline fx T S res hS hcol
      exact ⟨hv, bufferNoNewline_empty _ (by rw [hb2, hT])⟩
    obtain ⟨⟨ahead, term, lr⟩, l, c, st, d, stk, buf, tr⟩ := t
    rw [nextTok] at h
    dsimp only at h
    cases buf with
    | cons tk rest =>
      have hmem : ∀ x ∈ rest, noNewlineValue x := fun x hx =>
        hInv x (List.mem_cons_of_mem _ hx)
      dsimp only at h
      split at h <;>
        (obtain rfl := Option.some.inj h
         exact ⟨hInv tk (List.mem_cons_self _ _), fun tok htok => hmem tok htok⟩)
    | nil =>
      cases ahead with
      | nil =>
        cases term with
        | none =>
          rw [readRune_eof "NextToken" _ rfl rfl] at h
          dsimp only at h
          exact ih _ res (pushPerStateEOF_noNewline _
            (fun tok htok => absurd htok (List.not_mem_nil tok))) h
        | some e =>
          rw [readRune_fail "NextToken" _ e rfl rfl] at h
          dsimp only at h
          obtain rfl := Option.some.inj h
          exact ⟨by simp [noNewlineValue, returnError], bufferNoNewline_empty _ rfl⟩
      | cons c0 arest =>
        rw [readRune_ok "NextToken" _ c0 arest rfl] at h
        dsimp only at h
        cases st <;> dsimp only at h
        case blank =>
          by_cases h1 : c0 = ' '
          · rw [if_pos h1] at h
            exact ih _ res (bufferNoNewline_empty _ rfl) h
          · rw [if_neg h1] at h
            by_cases h2 : c0 = '\n'
            · rw [if_pos h2] at h
              obtain rfl := Option.some.inj h
              exact ⟨by simp [noNewlineValue, returnNewLine], bufferNoNewline_empty _ rfl⟩
            · rw [if_neg h2] at h
              by_cases h3 : c0 = '-' ∧ c + 1 = 1
              · rw [if_pos h3] at h
                exact ih _ res (bufferNoNewline_empty _ rfl) h
              · rw [if_neg h3] at h
                by_cases h4 : c0 = '.' ∧ c + 1 = 1
                · rw [if_pos h4] at h
                  exact ih _ res (bufferNoNewline_empty _ rfl) h
                · rw [if_neg h4] at h
                  exact hcollect _ _ _ rfl (by
                    intro x hx
                    simp only [List.mem_singleton] at hx
                    subst hx
                    exact h2) h
        case oneDot =>
          by_cases h1 : c0 = '.'
          · rw [if_pos h1] at h
            exact ih _ res (bufferNoNewline_empty _ rfl) h
          · rw [if_neg h1] at h
            by_cases h2 : c0 = '\n'
            · rw [if_pos h2] at h
              dsimp only [unreadRune, Reader.unread] at h
              obtain rfl := Option.some.inj h
              refine ⟨?_, bufferNoNewline_empty _ rfl⟩
              intro _
              dsimp only
              decide
            · rw [if_neg h2] at h
              exact hcollect _ _ _ rfl (by
                intro x hx
                rcases List.mem_cons.mp hx with rfl | hx
                · decide
                · simp only [List.mem_singleton] at hx
                  subst hx
                  exact h2) h
        case twoDots =>
          by_cases h1 : c0 = '.'
          · rw [if_pos h1] at h
            exact ih _ res (bufferNoNewline_empty _ rfl) h
          · rw [if_neg h1] at h
            by_cases h2 : c0 = '\n'
            · rw [if_pos h2] at h
              dsimp only [unreadRune, Reader.unread] at h
              obtain rfl := Option.some.inj h
              refine ⟨?_, bufferNoNewline_empty _ rfl⟩
              intro _
              dsimp only
              decide
            · rw [if_neg h2] at h
              exact hcollect _ _ _ rfl (by
                intro x hx
                rcases List.mem_cons.mp hx with rfl | hx
                · decide
                · rcases List.mem_cons.mp hx with rfl | hx
                  · decide
                  · simp only [List.mem_singleton] at hx
                    subst hx
                    exact h2) h
        case threeDots =>
          by_cases h1 : c0 = ' '
          · rw [if_pos h1] at h
            obtain rfl := Option.some.inj h
            exact ⟨by simp [noNewlineValue, returnDocEnd], bufferNoNewline_empty _ rfl⟩
          · rw [if_neg h1] at h
            by_cases h2 : c0 = '\n'
            · rw [if_pos h2] at h
              dsimp only [unreadRune, Reader.unread] at h
              obtain rfl := Option.some.inj h
              exact ⟨by simp [noNewlineValue, returnDocEnd], bufferNoNewline_empty _ rfl⟩
            · rw [if_neg h2] at h
              exact hcollect _ _ _ rfl (by
                intro x hx
                rcases List.mem_cons.mp hx with rfl | hx
                · decide
                · rcases List.mem_cons.mp hx with rfl | hx
                  · decide
                  · rcases List.mem_cons.mp hx with rfl | hx
                    · decide
                    · simp only [List.mem_singleton] at hx
                      subst hx
                      exact h2) h
        case oneDash =>
          by_cases h1 : c0 = ' '
          · rw [if_pos h1] at h
            obtain rfl := Option.some.inj h
            exact ⟨by simp [noNewlineValue, returnDash], bufferNoNewline_empty _ rfl⟩
          · rw [if_neg h1] at h
            by_cases h2 : c0 = '\t'
            · rw [if_pos h2] at h
              dsimp only [unreadAndReturnDash, unreadRune, Reader.unread, returnDash] at h
              obtain rfl := Option.some.inj h
              exact ⟨by simp [noNewlineValue], bufferNoNewline_empty _ rfl⟩
            · rw [if_neg h2] at h
              by_cases h3 : c0 = '\n'
              · rw [if_pos h3] at h
                dsimp only [unreadAndReturnDash, unreadRune, Reader.unread, returnDash] at h
                obtain rfl := Option.some.inj h
                exact ⟨by simp [noNewlineValue], bufferNoNewline_empty _ rfl⟩
              · rw [if_neg h3] at h
                by_cases h4 : c0 = '-'
                · rw [if_pos h4] at h
                  exact ih _ res (bufferNoNewline_empty _ rfl) h
                · rw [if_neg h4] at h
                  exact hcollect _ _ _ rfl (by
                    intro x hx
                    rcases List.mem_cons.mp hx with rfl | hx
                    · decide
                    · simp only [List.mem_singleton] at hx
                      subst hx
                      exact h3) h
        case twoDashes =>
          by_cases h1 : c0 = ' '
          · rw [if_pos h1] at h
            obtain rfl := Option.some.inj h
            refine ⟨?_, bufferNoNewline_empty _ rfl⟩
            intro _
            dsimp only
            decide
          · rw [if_neg h1] at h
            by_cases h2 : c0 = '\n'
            · rw [if_pos h2] at h
              dsimp only [unreadRune, Reader.unread] at h
              obtain rfl := Option.some.inj h
              refine ⟨?_, bufferNoNewline_empty _ rfl⟩
              intro _
              dsimp only
              decide
            · rw [if_neg h2] at h
              by_cases h3 : c0 = '-'
              · rw [if_pos h3] at h
                exact ih _ res (bufferNoNewline_empty _ rfl) h
              · rw [if_neg h3] at h
                exact hcollect _ _ _ rfl (by
                  intro x hx
                  rcases List.mem_cons.mp hx with rfl | hx
                  · decide
                  · rcases List.mem_cons.mp hx with rfl | hx
                    · decide
                    · simp only [List.mem_singleton] at hx
                      subst hx
                      exact h2) h
        case threeDashes =>
          by_cases h1 : c0 = ' '
          · rw [if_pos h1] at h
            obtain rfl := Option.some.inj h
            exact ⟨by simp [noNewlineValue, returnDocStart], bufferNoNewline_empty _ rfl⟩
          · rw [if_neg h1] at h
            by_cases h2 : c0 = '\n'
            · rw [if_pos h2] at h
              dsimp only [unreadRune, Reader.unread] at h
              obtain rfl := Option.some.inj h
              exact ⟨by simp [noNewlineValue, returnDocStart], bufferNoNewline_empty _ rfl⟩
            · rw [if_neg h2] at h
              exact hcollect _ _ _ rfl (by
                intro x hx
                rcases List.mem_cons.mp hx with rfl | hx
                · decide
                · rcases List.mem_cons.mp hx with rfl | hx
                  · decide
                  · rcases List.mem_cons.mp hx with rfl | hx
                    · decide
                    · simp only [List.mem_singleton] at hx
                      subst hx
                      exact h2) h
        case afterDash =>
          obtain ⟨hv, hb2⟩ := afterDashLoop_noNewline _ _ _ _ h
          exact ⟨hv, bufferNoNewline_empty _ (by rw [hb2])⟩
        case scalar =>
          by_cases h2 : c0 = '\n'
          · rw [if_pos h2] at h
            dsimp only [unreadRune, Reader.unread] at h
            exact hcollect _ _ _ rfl (by intro x hx; exact absurd hx (List.not_mem_nil x)) h
          · rw [if_neg h2] at h
            exact hcollect _ _ _ rfl (by
              intro x hx
              simp only [List.mem_singleton] at hx
              subst hx
              exact h2) h

theorem tokenize_noNewline : ∀ (fuel : Nat) (t : Tokenizer),
    bufferNoNewline t → ∀ tok ∈ tokenize fuel t, noNewlineValue tok := by
  intro fuel
  induction fuel with
  | zero =>
    intro t _ tok htok
    exact absurd htok (by simp [tokenize])
  | succ fuel ih =>
    intro t hInv tok htok
    rw [tokenize] at htok
    rcases hnt : nextTok (callFuel t) t with _ | ⟨tk, sig, t'⟩
    · rw [hnt] at htok
      exact absurd htok (List.not_mem_nil tok)
    · rw [hnt] at htok
      obtain ⟨hv, hInv2⟩ := nextTok_noNewline _ _ _ hInv hnt
      cases sig
      case ok =>
        dsimp only at htok
        rcases List.mem_cons.mp htok with rfl | htok
        · exact hv
        · exact ih t' hInv2 tok htok
      case eofSig =>
        dsimp only at htok
        simp only [List.mem_singleton] at htok
        subst htok
        exact hv
      case fail =>
        dsimp only at htok
        simp only [List.mem_singleton] at htok
        subst htok
        exact hv

/-- C10: every PlainScalar token `tokenize` produces — on any input
stream, with any terminal condition and debug flag, and any fuel — has
a value containing no newline character: a newline terminates scalar
collection (via peek or push-back) and is never included in a scalar's
value. -/
theorem claim10_scalars_no_newline :
    ∀ (input : List Char) (terminal : Option String) (debug : Bool) (fuel : Nat)
      (tok : Token), tok ∈ tokenize fuel (NewTokenizer input terminal debug) →
      tok.type = .plainScalar → ∀ x ∈ tok.value.data, x ≠ '\n' := by
  intro input terminal debug fuel tok htok hty
  exact tokenize_noNewline fuel _ (bufferNoNewline_empty _ rfl) tok htok hty

theorem claim10_scalars_no_newline_witness :
    ({ type := .plainScalar, value := "a", line := 1, column := 0 } : Token) ∈
      tokenize 3 (NewTokenizer ['a'] none false) ∧
    (∀ x ∈ ("a" : String).data, x ≠ '\n') :=
  ⟨by decide, claim10_scalars_no_newline ['a'] none false 3
    { type := .plainScalar, value := "a", line := 1, column := 0 } (by decide) rfl⟩

theorem stripDebug_mk (rd : Reader) (l c : Int) (st : TokenStatus) (d : Bool)
    (stk : List Int) (buf : List Token) (tr : List TraceEntry) :
    stripDebug ⟨rd, l, c, st, d, stk, buf, tr⟩ = ⟨rd, l, c, st, false, stk, buf, []⟩ := rfl

theorem collect_strip : ∀ (fuel : Nat) (t : Tokenizer) (scalar : List Char),
    collectPlainScalar fuel (stripDebug t) scalar =
      (collectPlainScalar fuel t scalar).map (fun r => (r.1, r.2.1, stripDebug r.2.2)) := by
  intro fuel
  induction fuel with
  | zero =>
    intro t scalar
    simp [collectPlainScalar]
  | succ fuel ih =>
    intro t scalar
    obtain ⟨⟨ahead, term, lr⟩, l, c, st, d, stk, buf, tr⟩ := t
    rw [collectPlainScalar, collectPlainScalar, stripDebug_mk]
    cases ahead with
    | nil => cases term <;> rfl
    | cons c0 arest =>
      dsimp only [Reader.peek1]
      by_cases hstop : c0 = '\n' ∨ c0 = '#'
      · rw [if_pos hstop, if_pos hstop]
        rfl
      · rw [if_neg hstop, if_neg hstop]
        rw [readRune_ok "collectPlainScalar" _ c0 arest rfl,
          readRune_ok "collectPlainScalar" _ c0 arest rfl]
        dsimp only
        exact ih ⟨⟨arest, term, some c0⟩, l, c + 1, st, d, stk, buf,
          if d = true then tr ++ [⟨"collectPlainScalar", st, .ok c0⟩] else tr⟩ (scalar ++ [c0])

theorem afterDashLoop_strip : ∀ (fuel : Nat) (t : Tokenizer) (ch : Char),
    afterDashLoop fuel (stripDebug t) ch =
      (afterDashLoop fuel t ch).map (fun r => (r.1, r.2.1, stripDebug r.2.2)) := by
  intro fuel
  induction fuel with
  | zero =>
    intro t ch
    simp [afterDashLoop]
  | succ fuel ih =>
    intro t ch
    obtain ⟨⟨ahead, term, lr⟩, l, c, st, d, stk, buf, tr⟩ := t
    rw [afterDashLoop, afterDashLoop, stripDebug_mk]
    by_cases hn : ch = '\n'
    · rw [if_pos hn, if_pos hn]
      rfl
    · rw [if_neg hn, if_neg hn]
      by_cases hsp : ch ≠ ' '
      · rw [if_pos hsp, if_pos hsp]
        exact collect_strip fuel ⟨⟨ahead, term, lr⟩, l, c, st, d, stk, buf, tr⟩ [ch]
      · rw [if_neg hsp, if_neg hsp]
        cases ahead with
        | nil =>
          cases term with
          | none =>
            rw [readRune_eof "NextToken: statusAfterDash" _ rfl rfl,
              readRune_eof "NextToken: statusAfterDash" _ rfl rfl]
            rfl
          | some e =>
            rw [readRune_fail "NextToken: statusAfterDash" _ e rfl rfl,
              readRune_fail "NextToken: statusAfterDash" _ e rfl rfl]
            rfl
        | cons c0 arest =>
          rw [readRune_ok "NextToken: statusAfterDash" _ c0 arest rfl,
            readRune_ok "NextToken: statusAfterDash" _ c0 arest rfl]
          dsimp only
          exact ih ⟨⟨arest, term, some c0⟩, l, c + 1, st, d, stk, buf,
            if d = true then tr ++ [⟨"NextToken: statusAfterDash", st, .ok c0⟩] else tr⟩ c0

theorem pushPerStateEOF_strip (t : Tokenizer) :
    pushPerStateEOF (stripDebug t) = stripDebug (pushPerStateEOF t) := by
  obtain ⟨⟨ahead, term, lr⟩, l, c, st, d, stk, buf, tr⟩ := t
  cases st <;>
    (simp only [pushPerStateEOF, tokenBufferPush, stripDebug]
     rw [drainDedents_spec _ _ (by simp), drainDedents_spec _ _ (by simp)])

theorem nextTok_strip : ∀ (fuel : Nat) (t : Tokenizer),
    nextTok fuel (stripDebug t) =
      (nextTok fuel t).map (fun r => (r.1, r.2.1, stripDebug r.2.2)) := by
  intro fuel
  induction fuel with
  | zero =>
    intro t
    simp [nextTok]
  | succ fuel ih =>
    intro t
    obtain ⟨⟨ahead, term, lr⟩, l, c, st, d, stk, buf, tr⟩ := t
    rw [nextTok, nextTok, stripDebug_mk]
    cases buf with
    | cons tk rest =>
      dsimp only
      by_cases he : tk.type = TokenType.eof
      · rw [if_pos he, if_pos he]
        rfl
      · rw [if_neg he, if_neg he]
        rfl
    | nil =>
      cases ahead with
      | nil =>
        cases term with
        | none =>
          rw [readRune_eof "NextToken" _ rfl rfl, readRune_eof "NextToken" _ rfl rfl]
          dsimp only
          have hB := ih (pushPerStateEOF ⟨⟨[], none, none⟩, l, c, st, d, stk, [],
            if d = true then tr ++ [⟨"NextToken", st, .eofR⟩] else tr⟩)
          rw [← pushPerStateEOF_strip] at hB
          exact hB
        | some e =>
          rw [readRune_fail "NextToken" _ e rfl rfl, readRune_fail "NextToken" _ e rfl rfl]
          rfl
      | cons c0 arest =>
        rw [readRune_ok "NextToken" _ c0 arest rfl, readRune_ok "NextToken" _ c0 arest rfl]
        dsimp only
        cases st <;> dsimp only
        case blank =>
          by_cases h1 : c0 = ' '
          · rw [if_pos h1, if_pos h1]
            exact ih ⟨⟨arest, term, some c0⟩, l, c + 1, .blank, d, stk, [],
              if d = true then tr ++ [⟨"NextToken", .blank, .ok c0⟩] else tr⟩
          · rw [if_neg h1, if_neg h1]
            by_cases h2 : c0 = '\n'
            · rw [if_pos h2, if_pos h2]
              rfl
            · rw [if_neg h2, if_neg h2]
              by_cases h3 : c0 = '-' ∧ c + 1 = 1
              · rw [if_pos h3, if_pos h3]
                exact ih ⟨⟨arest, term, some c0⟩, l, c + 1, .oneDash, d, stk, [],
                  if d = true then tr ++ [⟨"NextToken", .blank, .ok c0⟩] else tr⟩
              · rw [if_neg h3, if_neg h3]
                by_cases h4 : c0 = '.' ∧ c + 1 = 1
                · rw [if_pos h4, if_pos h4]
                  exact ih ⟨⟨arest, term, some c0⟩, l, c + 1, .oneDot, d, stk, [],
                    if d = true then tr ++ [⟨"NextToken", .blank, .ok c0⟩] else tr⟩
                · rw [if_neg h4, if_neg h4]
                  exact collect_strip fuel ⟨⟨arest, term, some c0⟩, l, c + 1, .blank, d, stk, [],
                    if d = true then tr ++ [⟨"NextToken", .blank, .ok c0⟩] else tr⟩ [c0]
        case oneDot =>
          by_cases h1 : c0 = '.'
          · rw [if_pos h1, if_pos h1]
            exact ih ⟨⟨arest, term, some c0⟩, l, c + 1, .twoDots, d, stk, [],
              if d = true then tr ++ [⟨"NextToken", .oneDot, .ok c0⟩] else tr⟩
          · rw [if_neg h1, if_neg h1]
            by_cases h2 : c0 = '\n'
            · rw [if_pos h2, if_pos h2]
              rfl
            · rw [if_neg h2, if_neg h2]
              exact collect_strip fuel ⟨⟨arest, term, some c0⟩, l, c + 1, .scalar, d, stk, [],
                if d = true then tr ++ [⟨"NextToken", .oneDot, .ok c0⟩] else tr⟩ ['.', c0]
        case twoDots =>
          by_cases h1 : c0 = '.'
          · rw [if_pos h1, if_pos h1]
            exact ih ⟨⟨arest, term, some c0⟩, l, c + 1, .threeDots, d, stk, [],
              if d = true then tr ++ [⟨"NextToken", .twoDots, .ok c0⟩] else tr⟩
          · rw [if_neg h1, if_neg h1]
            by_cases h2 : c0 = '\n'
            · rw [if_pos h2, if_pos h2]
              rfl
            · rw [if_neg h2, if_neg h2]
              exact collect_strip fuel ⟨⟨arest, term, some c0⟩, l, c + 1, .scalar, d, stk, [],
                if d = true then tr ++ [⟨"NextToken", .twoDots, .ok c0⟩] else tr⟩ ['.', '.', c0]
        case threeDots =>
          by_cases h1 : c0 = ' '
          · rw [if_pos h1, if_pos h1]
            rfl
          · rw [if_neg h1, if_neg h1]
            by_cases h2 : c0 = '\n'
            · rw [if_pos h2, if_pos h2]
              rfl
            · rw [if_neg h2, if_neg h2]
              exact collect_strip fuel ⟨⟨arest, term, some c0⟩, l, c + 1, .scalar, d, stk, [],
                if d = true then tr ++ [⟨"NextToken", .threeDots, .ok c0⟩] else tr⟩
                ['.', '.', '.', c0]
        case oneDash =>
          by_cases h1 : c0 = ' '
          · rw [if_pos h1, if_pos h1]
            rfl
          · rw [if_neg h1, if_neg h1]
            by_cases h2 : c0 = '\t'
            · rw [if_pos h2, if_pos h2]
              rfl
            · rw [if_neg h2, if_neg h2]
              by_cases h3 : c0 = '\n'
              · rw [if_pos h3, if_pos h3]
                rfl
              · rw [if_neg h3, if_neg h3]
                by_cases h4 : c0 = '-'
                · rw [if_pos h4, if_pos h4]
                  exact ih ⟨⟨arest, term, some c0⟩, l, c + 1, .twoDashes, d, stk, [],
                    if d = true then tr ++ [⟨"NextToken", .oneDash, .ok c0⟩] else tr⟩
                · rw [if_neg h4, if_neg h4]
                  exact collect_strip fuel ⟨⟨arest, term, some c0⟩, l, c + 1, .blank, d, stk, [],
                    if d = true then tr ++ [⟨"NextToken", .oneDash, .ok c0⟩] else tr⟩ ['-', c0]
        case twoDashes =>
          by_cases h1 : c0 = ' '
          · rw [if_pos h1, if_pos h1]
            rfl
          · rw [if_neg h1, if_neg h1]
            by_cases h2 : c0 = '\n'
            · rw [if_pos h2, if_pos h2]
              rfl
            · rw [if_neg h2, if_neg h2]
              by_cases h3 : c0 = '-'
              · rw [if_pos h3, if_pos h3]
                exact ih ⟨⟨arest, term, some c0⟩, l, c + 1, .threeDashes, d, stk, [],
                  if d = true then tr ++ [⟨"NextToken", .twoDashes, .ok c0⟩] else tr⟩
              · rw [if_neg h3, if_neg h3]
                exact collect_strip fuel ⟨⟨arest, term, some c0⟩, l, c + 1, .blank, d, stk, [],
                  if d = true then tr ++ [⟨"NextToken", .twoDashes, .ok c0⟩] else tr⟩ ['-', '-', c0]
        case threeDashes =>
          by_cases h1 : c0 = ' '
          · rw [if_pos h1, if_pos h1]
            rfl
          · rw [if_neg h1, if_neg h1]
            by_cases h2 : c0 = '\n'
            · rw [if_pos h2, if_pos h2]
              rfl
            · rw [if_neg h2, if_neg h2]
              exact collect_strip fuel ⟨⟨arest, term, some c0⟩, l, c + 1, .blank, d, stk, [],
                if d = true then tr ++ [⟨"NextToken", .threeDashes, .ok c0⟩] else tr⟩
                ['-', '-', '-', c0]
        case afterDash =>
          exact afterDashLoop_strip fuel ⟨⟨arest, term, some c0⟩, l, c + 1, .blank, d, stk, [],
            if d = true then tr ++ [⟨"NextToken", .afterDash, .ok c0⟩] else tr⟩ c0
        case scalar =>
          by_cases h2 : c0 = '\n'
          · rw [if_pos h2, if_pos h2]
            exact collect_strip fuel ⟨⟨c0 :: arest, term, none⟩, l, c + 1 - 1, .blank, d, stk, [],
              if d = true then tr ++ [⟨"NextToken", .scalar, .ok c0⟩] else tr⟩ []
          · rw [if_neg h2, if_neg h2]
            exact collect_strip fuel ⟨⟨arest, term, some c0⟩, l, c + 1, .blank, d, stk, [],
              if d = true then tr ++ [⟨"NextToken", .scalar, .ok c0⟩] else tr⟩ [c0]

theorem tokenize_strip : ∀ (fuel : Nat) (t : Tokenizer),
    tokenize fuel (stripDebug t) = tokenize fuel t := by
  intro fuel
  induction fuel with
  | zero =>
    intro t
    rfl
  | succ fuel ih =>
    intro t
    rw [tokenize, tokenize]
    have hcf : callFuel (stripDebug t) = callFuel t := rfl
    rw [hcf, nextTok_strip]
    rcases hx : nextTok (callFuel t) t with _ | ⟨tk, sig, t'⟩
    · rfl
    · cases sig
      case ok =>
        dsimp only [Option.map]
        rw [ih t']
      case eofSig => rfl
      case fail => rfl

/-- C8: the debug flag only feeds the diagnostic trace side channel;
the token sequence produced by a tokenizer created with the debug flag
true is identical — kinds, values, positions and signals — to the one
produced with the flag false, for every input stream, terminal
condition and fuel. -/
theorem claim8_debug_flag_no_effect_on_tokens :
    ∀ (input : List Char) (terminal : Option String) (fuel : Nat),
      tokenize fuel (NewTokenizer input terminal true) =
        tokenize fuel (NewTokenizer input terminal false) := by
  intro input terminal fuel
  have h := tokenize_strip fuel (NewTokenizer input terminal true)
  rw [show stripDebug (NewTokenizer input terminal true) =
    NewTokenizer input terminal false from rfl] at h
  exact h.symm

end Yamlot
